import Mathlib

/-!
Verification of the smart-pointer components (`SharedPtr<T>` in
`shared_ptr/shared-inl.h` and `UniquePtr<T>` in `unique_ptr/unique-inl.h`)
against their specification.

The C++ code is shallowly embedded as a state machine.  A `SharedPtr`
instance is a pair of fields `pointer` (a raw pointer to the owned object,
modelled as an object identifier) and `count` (a raw pointer to the
heap-allocated control block holding the atomic counter, modelled as a
block identifier).  The global state keeps, per block identifier, the
current counter value (`none` once `delete count` has run), and per
instance identifier the instance's two fields (`none` once the destructor
has run).  `delete pointer` / `delete count` at the freeing site are
recorded in the `freedObjs` / `freedBlocks` logs.  Operations whose C++
counterpart would dereference a null or dangling pointer (for example
`count->fetch_add` on a moved-from source) return `none`: they are
undefined behaviour in the source.

Two fields of a block are ghost history variables used only to state
invariants; they change nothing observable: `dflt` records that the block
was allocated by the default constructor (with counter 0), and `ab` counts
how many times an instance abandoned its reference to the block through
copy-assignment, which in the source overwrites `count` without any
decrement.
-/

/-- Lookup at a position in a list, `none` when out of range. -/
def getIdx {α : Type} : List α → Nat → Option α
  | [], _ => none
  | a :: _, 0 => some a
  | _ :: rest, n + 1 => getIdx rest n

/-- Replace the element at a position in a list (no-op when out of range). -/
def setIdx {α : Type} : List α → Nat → α → List α
  | [], _, _ => []
  | _ :: rest, 0, a => a :: rest
  | x :: rest, n + 1, a => x :: setIdx rest n a

/-- The two raw-pointer fields of a `SharedPtr<T>` instance:
`pointer` (object id or null) and `count` (control-block id or null). -/
structure SPtr where
  pointer : Option Nat
  count : Option Nat
  deriving DecidableEq, Repr

/-- A control block: `val` is the current counter value (`none` after
`delete count`); `dflt` and `ab` are ghost history fields (see above). -/
structure Blk where
  val : Option Int
  dflt : Bool
  ab : Nat
  deriving DecidableEq, Repr

/-- The global state: all control blocks ever allocated (index = block id),
all instances ever constructed (index = instance id, `none` once
destructed), a fresh-object counter, and logs of the `delete pointer` and
`delete count` calls performed at the freeing site. -/
structure SPState where
  blocks : List Blk
  insts : List (Option SPtr)
  nextObj : Nat
  freedObjs : List Nat
  freedBlocks : List Nat
  deriving DecidableEq, Repr

/-- The empty initial state: no blocks, no instances, nothing freed. -/
def init : SPState := ⟨[], [], 0, [], []⟩

/-- `SharedPtr()`: `pointer = nullptr; count = new std::atomic<int>(0)`. -/
def newDefault (s : SPState) : SPState :=
  { s with
    blocks := s.blocks ++ [⟨some 0, true, 0⟩]
    insts := s.insts ++ [some ⟨none, some s.blocks.length⟩] }

/-- `SharedPtr(T* pointer)`: `this->pointer = pointer;
count = new std::atomic<int>(1)`.  The freshly heap-allocated object the
caller passes is modelled by the fresh object id `s.nextObj`. -/
def newFromPtr (s : SPState) : SPState :=
  { s with
    blocks := s.blocks ++ [⟨some 1, false, 0⟩]
    insts := s.insts ++ [some ⟨some s.nextObj, some s.blocks.length⟩]
    nextObj := s.nextObj + 1 }

/-- `SharedPtr(SharedPtr& other)`: copies both fields and then
`count->fetch_add(1, relaxed)`.  When the source's `count` is null
(moved-from source) or already freed, the `fetch_add` is undefined
behaviour: `none`. -/
def copyCtor (s : SPState) (j : Nat) : Option SPState :=
  match getIdx s.insts j with
  | some (some pj) =>
    match pj.count with
    | some b =>
      match getIdx s.blocks b with
      | some blk =>
        match blk.val with
        | some c =>
          some { s with
                 blocks := setIdx s.blocks b { blk with val := some (c + 1) }
                 insts := s.insts ++ [some ⟨pj.pointer, some b⟩] }
        | none => none
      | none => none
    | none => none
  | _ => none

/-- Ghost bookkeeping for copy-assignment: the assignee walks away from
its previous control block without decrementing it, so that block's
abandonment counter goes up.  The counter value is untouched. -/
def bumpAb (blocks : List Blk) : Option Nat → List Blk
  | none => blocks
  | some b =>
    match getIdx blocks b with
    | some blk => setIdx blocks b { blk with ab := blk.ab + 1 }
    | none => blocks

/-- `operator=(SharedPtr& other)`: identity check `this == &other`, then
overwrite `pointer` and `count` with the source's fields and
`count->fetch_add(1, relaxed)`.  No release of the assignee's previous
reference happens in the source; the ghost `bumpAb` records the
abandonment. -/
def copyAssign (s : SPState) (i j : Nat) : Option SPState :=
  if i = j then
    match getIdx s.insts i with
    | some (some _) => some s
    | _ => none
  else
    match getIdx s.insts i, getIdx s.insts j with
    | some (some pi), some (some pj) =>
      match pj.count with
      | some b =>
        match getIdx s.blocks b with
        | some blk =>
          match blk.val with
          | some c =>
            some { s with
                   blocks := setIdx (bumpAb s.blocks pi.count) b
                     { blk with val := some (c + 1)
                                ab := blk.ab + (if pi.count = some b then 1 else 0) }
                   insts := setIdx s.insts i (some ⟨pj.pointer, some b⟩) }
          | none => none
        | none => none
      | none => none
    | _, _ => none

/-- `SharedPtr(SharedPtr&& other)`: takes over both fields and nulls the
source's fields; the count is not touched. -/
def moveCtor (s : SPState) (j : Nat) : Option SPState :=
  match getIdx s.insts j with
  | some (some pj) =>
    some { s with insts := setIdx s.insts j (some ⟨none, none⟩) ++ [some pj] }
  | _ => none

/-- The release sequence shared by move-assignment, `reset` and the
destructor:
`if (count && count->fetch_sub(1, acq_rel) == 0) { delete pointer; delete count; }`.
`fetch_sub` returns the value it read, so the branch fires exactly when
the pre-decrement counter is 0.  `delete` of a null `pointer` is a no-op;
`fetch_sub` on a freed counter is undefined behaviour. -/
def releaseRef (s : SPState) (p : SPtr) : Option SPState :=
  match p.count with
  | none => some s
  | some b =>
    match getIdx s.blocks b with
    | some blk =>
      match blk.val with
      | some c =>
        if c = 0 then
          some { s with
                 blocks := setIdx s.blocks b { blk with val := none }
                 freedObjs := s.freedObjs ++
                   (match p.pointer with | some o => [o] | none => [])
                 freedBlocks := s.freedBlocks ++ [b] }
        else
          some { s with blocks := setIdx s.blocks b { blk with val := some (c - 1) } }
      | none => none
    | none => none

/-- `operator=(SharedPtr&& other)`: identity check `this == &other`, then
the release sequence on the assignee's own fields, then adoption of the
source's fields and nulling of the source. -/
def moveAssign (s : SPState) (i j : Nat) : Option SPState :=
  if i = j then
    match getIdx s.insts i with
    | some (some _) => some s
    | _ => none
  else
    match getIdx s.insts i, getIdx s.insts j with
    | some (some pi), some (some pj) =>
      match releaseRef s pi with
      | some s1 =>
        some { s1 with
               insts := setIdx (setIdx s1.insts i (some pj)) j (some ⟨none, none⟩) }
      | none => none
    | _, _ => none

/-- `reset()`: the release sequence, then `pointer = nullptr; count = nullptr`. -/
def reset (s : SPState) (i : Nat) : Option SPState :=
  match getIdx s.insts i with
  | some (some pi) =>
    match releaseRef s pi with
    | some s1 => some { s1 with insts := setIdx s1.insts i (some ⟨none, none⟩) }
    | none => none
  | _ => none

/-- `~SharedPtr()`: the release sequence, then the instance is gone. -/
def destroy (s : SPState) (i : Nat) : Option SPState :=
  match getIdx s.insts i with
  | some (some pi) =>
    match releaseRef s pi with
    | some s1 => some { s1 with insts := setIdx s1.insts i none }
    | none => none
  | _ => none

/-- `use_count()`: `count ? count->load(relaxed) : 0`.  A load through a
dangling `count` is undefined behaviour. -/
def use_count (s : SPState) (i : Nat) : Option Int :=
  match getIdx s.insts i with
  | some (some p) =>
    match p.count with
    | none => some 0
    | some b =>
      match getIdx s.blocks b with
      | some blk =>
        match blk.val with
        | some c => some c
        | none => none
      | none => none
  | _ => none

/-- `get()`: returns the raw `pointer` field. -/
def sget (s : SPState) (i : Nat) : Option (Option Nat) :=
  match getIdx s.insts i with
  | some (some p) => some p.pointer
  | _ => none

/-- One public operation on the `SharedPtr` API surface. -/
inductive SOp
  | newDefault
  | newFromPtr
  | copyCtor (j : Nat)
  | copyAssign (i j : Nat)
  | moveCtor (j : Nat)
  | moveAssign (i j : Nat)
  | reset (i : Nat)
  | destroy (i : Nat)
  deriving DecidableEq, Repr

/-- Apply one operation. -/
def applyOp (s : SPState) : SOp → Option SPState
  | SOp.newDefault => some (newDefault s)
  | SOp.newFromPtr => some (newFromPtr s)
  | SOp.copyCtor j => copyCtor s j
  | SOp.copyAssign i j => copyAssign s i j
  | SOp.moveCtor j => moveCtor s j
  | SOp.moveAssign i j => moveAssign s i j
  | SOp.reset i => reset s i
  | SOp.destroy i => destroy s i

/-- Run a sequence of operations. -/
def run (s : SPState) : List SOp → Option SPState
  | [] => some s
  | op :: ops =>
    match applyOp s op with
    | some s1 => run s1 ops
    | none => none

/-- Contribution of one instance slot to a block's reference count. -/
def contrib : Option SPtr → Nat → Nat
  | none, _ => 0
  | some p, b => if p.count = some b then 1 else 0

/-- Number of live instances whose `count` field references block `b`. -/
def refCount : List (Option SPtr) → Nat → Nat
  | [], _ => 0
  | x :: rest, b => contrib x b + refCount rest b

/-! ### The per-block counting invariant -/

/-- Well-formedness: every live instance's control-block reference points
at an allocated block. -/
def wfState (s : SPState) : Prop :=
  ∀ i p, getIdx s.insts i = some (some p) → ∀ b, p.count = some b → b < s.blocks.length

/-- The counting invariant that actually holds of the code: a live
counter equals the number of live referencing instances, minus one when
the block came from the default constructor (which starts the counter at
0 with one referencing instance), plus the number of abandonments through
copy-assignment (which drops a reference without decrementing). -/
def blockInv (s : SPState) : Prop :=
  ∀ b blk, getIdx s.blocks b = some blk → ∀ c, blk.val = some c →
    c = (refCount s.insts b : Int) - (if blk.dflt then 1 else 0) + (blk.ab : Int)

/-- Combined inductive invariant. -/
def SInv (s : SPState) : Prop := wfState s ∧ blockInv s


/-! ### The concurrency scenario of the spec

The spec's one guaranteed concurrent operation: N threads each repeatedly
copy-construct a local copy from one shared live `SharedPtr` (instance 0,
constructed from a pointer) and destroy that local copy.  The atomic
`fetch_add`/`fetch_sub` are indivisible, so a concurrent execution is an
arbitrary interleaving of these two steps. -/

/-- One scheduler step: some thread copy-constructs from instance 0, or
destroys one of the thread-local copies (never instance 0 itself). -/
inductive CStep : SPState → SPState → Prop
  | copy (s s' : SPState) : applyOp s (SOp.copyCtor 0) = some s' → CStep s s'
  | drop (s s' : SPState) (i : Nat) : i ≠ 0 →
      getIdx s.insts i = some (some ⟨some 0, some 0⟩) →
      applyOp s (SOp.destroy i) = some s' → CStep s s'

/-- Invariant of the scenario: the original instance 0 is alive and owns
object 0 through block 0, the single block's counter equals the number of
live copies (including the original), and nothing has been freed. -/
def ConcInv (s : SPState) : Prop :=
  getIdx s.insts 0 = some (some ⟨some 0, some 0⟩) ∧
  s.blocks = [⟨some (refCount s.insts 0 : Int), false, 0⟩] ∧
  s.freedObjs = [] ∧ s.freedBlocks = []

/-! ### The `UniquePtr<T>` model (`unique_ptr/unique-inl.h`)

A `UniquePtr` instance is its single field `pointer` (an object id or
null).  The heap maps object ids to their current `T` value (modelled as
`Int`); `delete pointer` on a non-null pointer is logged in `freedObjs`.
An instance slot is `none` once the destructor has run. -/

structure UPState where
  insts : List (Option (Option Nat))
  heap : List Int
  freedObjs : List Nat
  deriving DecidableEq, Repr

/-- `UniquePtr()`: `this->pointer = nullptr`. -/
def unewEmpty (s : UPState) : UPState :=
  { s with insts := s.insts ++ [some none] }

/-- `UniquePtr(T* pointer)`: takes ownership of a freshly heap-allocated
object holding value `v`. -/
def unewFromPtr (s : UPState) (v : Int) : UPState :=
  { s with
    heap := s.heap ++ [v]
    insts := s.insts ++ [some (some s.heap.length)] }

/-- `UniquePtr(UniquePtr&& other)`: `pointer = other.pointer;
other.pointer = nullptr`. -/
def umoveCtor (s : UPState) (j : Nat) : Option UPState :=
  match getIdx s.insts j with
  | some (some pj) =>
    some { s with insts := setIdx s.insts j (some none) ++ [some pj] }
  | _ => none

/-- `operator=(UniquePtr&& other)`: identity check `this == &other` before
any mutation, then `delete pointer` (frees the currently owned object, a
no-op on null), then adopt `other.pointer` and null the source. -/
def umoveAssign (s : UPState) (i j : Nat) : Option UPState :=
  if i = j then
    match getIdx s.insts i with
    | some (some _) => some s
    | _ => none
  else
    match getIdx s.insts i, getIdx s.insts j with
    | some (some pi), some (some pj) =>
      some { s with
             freedObjs := s.freedObjs ++ pi.toList
             insts := setIdx (setIdx s.insts i (some pj)) j (some none) }
    | _, _ => none

/-- `~UniquePtr()`: `delete pointer`. -/
def udestroy (s : UPState) (i : Nat) : Option UPState :=
  match getIdx s.insts i with
  | some (some pi) =>
    some { s with
           freedObjs := s.freedObjs ++ pi.toList
           insts := setIdx s.insts i none }
  | _ => none

/-- `reset()`: `delete pointer; pointer = nullptr`. -/
def ureset (s : UPState) (i : Nat) : Option UPState :=
  match getIdx s.insts i with
  | some (some pi) =>
    some { s with
           freedObjs := s.freedObjs ++ pi.toList
           insts := setIdx s.insts i (some none) }
  | _ => none

/-- `release()`: `T* temp = pointer; pointer = nullptr; return temp;`
no `delete` anywhere. -/
def urelease (s : UPState) (i : Nat) : Option (UPState × Option Nat) :=
  match getIdx s.insts i with
  | some (some pi) =>
    some ({ s with insts := setIdx s.insts i (some none) }, pi)
  | _ => none

/-- `get()`: returns the raw `pointer` field. -/
def uget (s : UPState) (i : Nat) : Option (Option Nat) :=
  match getIdx s.insts i with
  | some (some pi) => some pi
  | _ => none

/-- `T operator*() const`: the return type is `T`, not `T&`, so returning
`*pointer` materialises a fresh copy of the pointee; modelled as a new
heap cell holding the pointee's current value, whose id is returned.
Dereferencing an empty pointer is undefined behaviour. -/
def uderefCopy (s : UPState) (i : Nat) : Option (UPState × Nat) :=
  match getIdx s.insts i with
  | some (some (some o)) =>
    match getIdx s.heap o with
    | some v => some ({ s with heap := s.heap ++ [v] }, s.heap.length)
    | none => none
  | _ => none

/-- Overwrite the object stored at heap cell `o` with value `v`
(an assignment through some reference to that cell). -/
def writeObj (s : UPState) (o : Nat) (v : Int) : UPState :=
  { s with heap := setIdx s.heap o v }

/-! ### Lemmas about `getIdx`, `setIdx` and reference counting -/

theorem getIdx_lt_length {α : Type} {l : List α} {n : Nat} {a : α}
    (h : getIdx l n = some a) : n < l.length := by
  induction l generalizing n with
  | nil => simp [getIdx] at h
  | cons x rest ih =>
    cases n with
    | zero => simp
    | succ m =>
      simp only [getIdx] at h
      exact Nat.succ_lt_succ (ih h)

theorem setIdx_length {α : Type} (l : List α) (n : Nat) (a : α) :
    (setIdx l n a).length = l.length := by
  induction l generalizing n with
  | nil => rfl
  | cons x rest ih =>
    cases n with
    | zero => rfl
    | succ m => simpa [setIdx] using ih m

theorem getIdx_setIdx_self {α : Type} {l : List α} {n : Nat} {b : α} (a : α)
    (h : getIdx l n = some b) : getIdx (setIdx l n a) n = some a := by
  induction l generalizing n with
  | nil => simp [getIdx] at h
  | cons x rest ih =>
    cases n with
    | zero => rfl
    | succ m => exact ih (h := h)

theorem getIdx_setIdx_ne {α : Type} (l : List α) {m n : Nat} (a : α)
    (h : m ≠ n) : getIdx (setIdx l n a) m = getIdx l m := by
  induction l generalizing m n with
  | nil => rfl
  | cons x rest ih =>
    cases n with
    | zero =>
      cases m with
      | zero => exact absurd rfl h
      | succ k => rfl
    | succ n1 =>
      cases m with
      | zero => rfl
      | succ k => exact ih (fun e => h (by simpa using e))

theorem setIdx_eq_of_getIdx {α : Type} {l : List α} {n : Nat} {a : α}
    (h : getIdx l n = some a) : setIdx l n a = l := by
  induction l generalizing n with
  | nil => rfl
  | cons x rest ih =>
    cases n with
    | zero =>
      simp only [getIdx, Option.some.injEq] at h
      simp [setIdx, h]
    | succ m =>
      simp only [getIdx] at h
      simp [setIdx, ih h]

theorem setIdx_setIdx {α : Type} (l : List α) (n : Nat) (a b : α) :
    setIdx (setIdx l n a) n b = setIdx l n b := by
  induction l generalizing n with
  | nil => rfl
  | cons x rest ih =>
    cases n with
    | zero => rfl
    | succ m => simp [setIdx, ih]

theorem getIdx_append_lt {α : Type} {l : List α} (l2 : List α) {n : Nat}
    (h : n < l.length) : getIdx (l ++ l2) n = getIdx l n := by
  induction l generalizing n with
  | nil => simp at h
  | cons x rest ih =>
    cases n with
    | zero => rfl
    | succ m => exact ih (Nat.lt_of_succ_lt_succ h)

theorem getIdx_append_length {α : Type} (l : List α) (a : α) :
    getIdx (l ++ [a]) l.length = some a := by
  induction l with
  | nil => rfl
  | cons x rest ih => simpa [getIdx] using ih

theorem refCount_append (l l2 : List (Option SPtr)) (b : Nat) :
    refCount (l ++ l2) b = refCount l b + refCount l2 b := by
  induction l with
  | nil => simp [refCount]
  | cons x rest ih => simp [refCount, ih]; omega

theorem refCount_setIdx {l : List (Option SPtr)} {i : Nat} {x : Option SPtr}
    (y : Option SPtr) (b : Nat) (h : getIdx l i = some x) :
    refCount (setIdx l i y) b + contrib x b = refCount l b + contrib y b := by
  induction l generalizing i with
  | nil => simp [getIdx] at h
  | cons z rest ih =>
    cases i with
    | zero =>
      simp only [getIdx, Option.some.injEq] at h
      subst h
      simp [setIdx, refCount]
      omega
    | succ m =>
      simp only [getIdx] at h
      have := ih (i := m) h
      simp [setIdx, refCount]
      omega

theorem refCount_fresh {l : List (Option SPtr)} {L : Nat}
    (hf : ∀ i p, getIdx l i = some (some p) → ∀ bb, p.count = some bb → bb < L)
    {b : Nat} (hb : L ≤ b) : refCount l b = 0 := by
  induction l with
  | nil => rfl
  | cons x rest ih =>
    have hx : contrib x b = 0 := by
      cases x with
      | none => rfl
      | some p =>
        have hne : ¬ p.count = some b := fun e => absurd (hf 0 p rfl b e) (by omega)
        simp [contrib, hne]
    have hrest : refCount rest b = 0 :=
      ih (fun i p h bb e => hf (i + 1) p h bb e)
    simp [refCount, hx, hrest]

theorem getIdx_of_lt {α : Type} {l : List α} {n : Nat} (h : n < l.length) :
    ∃ a, getIdx l n = some a := by
  induction l generalizing n with
  | nil => simp at h
  | cons x rest ih =>
    cases n with
    | zero => exact ⟨x, rfl⟩
    | succ m => exact ih (Nat.lt_of_succ_lt_succ h)

theorem getIdx_append_elim {α : Type} {l : List α} {a x : α} {i : Nat}
    (h : getIdx (l ++ [a]) i = some x) :
    getIdx l i = some x ∨ (i = l.length ∧ x = a) := by
  induction l generalizing i with
  | nil =>
    cases i with
    | zero =>
      simp only [List.nil_append, getIdx, Option.some.injEq] at h
      exact Or.inr ⟨rfl, h.symm⟩
    | succ m => simp [getIdx] at h
  | cons y rest ih =>
    cases i with
    | zero => exact Or.inl h
    | succ m =>
      rcases ih h with h1 | ⟨h1, h2⟩
      · exact Or.inl h1
      · exact Or.inr ⟨by simp [h1], h2⟩

theorem getIdx_setIdx_elim {α : Type} {l : List α} {n i : Nat} {a x : α}
    (h : getIdx (setIdx l n a) i = some x) :
    (i ≠ n ∧ getIdx l i = some x) ∨ (i = n ∧ x = a) := by
  by_cases hin : i = n
  · subst hin
    have hlt : i < l.length := by
      have := getIdx_lt_length h
      rwa [setIdx_length] at this
    obtain ⟨b, hb⟩ := getIdx_of_lt hlt
    rw [getIdx_setIdx_self a hb] at h
    exact Or.inr ⟨rfl, (Option.some.injEq _ _ ▸ h).symm⟩
  · rw [getIdx_setIdx_ne l a hin] at h
    exact Or.inl ⟨hin, h⟩

theorem bumpAb_length (blocks : List Blk) (ob : Option Nat) :
    (bumpAb blocks ob).length = blocks.length := by
  cases ob with
  | none => rfl
  | some b =>
    simp only [bumpAb]
    cases hb : getIdx blocks b with
    | none => rfl
    | some blk => simp [setIdx_length]

theorem inv_init : SInv init := by
  constructor
  · intro i p h
    cases i <;> simp [init, getIdx] at h
  · intro b blk h
    cases b <;> simp [init, getIdx] at h

theorem inv_newDefault {s : SPState} (h : SInv s) : SInv (newDefault s) := by
  obtain ⟨hwf, hbi⟩ := h
  constructor
  · intro i p hi b hb
    simp only [newDefault, List.length_append, List.length_cons, List.length_nil] at *
    rcases getIdx_append_elim hi with h1 | ⟨_, h2⟩
    · exact Nat.lt_succ_of_lt (hwf i p h1 b hb)
    · cases h2
      simp only [Option.some.injEq] at hb
      omega
  · intro b blk hb c hc
    simp only [newDefault] at hb ⊢
    rcases getIdx_append_elim hb with h1 | ⟨hb1, hb2⟩
    · have hblt : b < s.blocks.length := getIdx_lt_length h1
      have hcontrib : contrib (some ⟨none, some s.blocks.length⟩) b = 0 := by
        have hne : ¬ ((some s.blocks.length : Option Nat) = some b) := by
          intro e; simp only [Option.some.injEq] at e; omega
        simp [contrib, hne]
      rw [refCount_append]
      simp only [refCount, hcontrib, Nat.add_zero]
      exact hbi b blk h1 c hc
    · subst hb1; subst hb2
      simp only [Option.some.injEq] at hc
      have hfresh : refCount s.insts s.blocks.length = 0 :=
        refCount_fresh (fun i p hp bb e => hwf i p hp bb e) (Nat.le_refl _)
      rw [refCount_append]
      simp [refCount, contrib, hfresh, ← hc]

theorem inv_newFromPtr {s : SPState} (h : SInv s) : SInv (newFromPtr s) := by
  obtain ⟨hwf, hbi⟩ := h
  constructor
  · intro i p hi b hb
    simp only [newFromPtr, List.length_append, List.length_cons, List.length_nil] at *
    rcases getIdx_append_elim hi with h1 | ⟨_, h2⟩
    · exact Nat.lt_succ_of_lt (hwf i p h1 b hb)
    · cases h2
      simp only [Option.some.injEq] at hb
      omega
  · intro b blk hb c hc
    simp only [newFromPtr] at hb ⊢
    rcases getIdx_append_elim hb with h1 | ⟨hb1, hb2⟩
    · have hcontrib : contrib (some ⟨some s.nextObj, some s.blocks.length⟩) b = 0 := by
        have hblt : b < s.blocks.length := getIdx_lt_length h1
        have hne : ¬ ((some s.blocks.length : Option Nat) = some b) := by
          intro e; simp only [Option.some.injEq] at e; omega
        simp [contrib, hne]
      rw [refCount_append]
      simp only [refCount, hcontrib, Nat.add_zero]
      exact hbi b blk h1 c hc
    · subst hb1; subst hb2
      simp only [Option.some.injEq] at hc
      have hfresh : refCount s.insts s.blocks.length = 0 :=
        refCount_fresh (fun i p hp bb e => hwf i p hp bb e) (Nat.le_refl _)
      rw [refCount_append]
      simp [refCount, contrib, hfresh, ← hc]

theorem inv_copyCtor {s s' : SPState} {j : Nat} (h : SInv s)
    (hc : copyCtor s j = some s') : SInv s' := by
  obtain ⟨hwf, hbi⟩ := h
  unfold copyCtor at hc
  split at hc
  · rename_i pj hj
    split at hc
    · rename_i b hb
      split at hc
      · rename_i blk hblk
        split at hc
        · rename_i c hcv
          injection hc with hc
          subst hc
          constructor
          · intro i p hi b' hb'
            rw [setIdx_length]
            rcases getIdx_append_elim hi with h1 | ⟨_, h2⟩
            · exact hwf i p h1 b' hb'
            · injection h2 with h2
              subst h2
              simp only [Option.some.injEq] at hb'
              subst hb'
              exact getIdx_lt_length hblk
          · intro b' blk' hb' c' hc'
            rcases getIdx_setIdx_elim hb' with ⟨hne, hget⟩ | ⟨heq, hval⟩
            · have hold := hbi b' blk' hget c' hc'
              have hc0 : contrib (some ⟨pj.pointer, some b⟩) b' = 0 := by
                have hnb : ¬ ((some b : Option Nat) = some b') := by
                  intro e
                  injection e with e
                  exact hne e.symm
                simp [contrib, hnb]
              rw [refCount_append]
              simp only [refCount, hc0, Nat.add_zero]
              exact hold
            · subst heq
              subst hval
              simp only [Option.some.injEq] at hc'
              have hold := hbi b' blk hblk c hcv
              have hc1 : contrib (some ⟨pj.pointer, some b'⟩) b' = 1 := by
                simp [contrib]
              rw [refCount_append]
              simp only [refCount, hc1, Nat.add_zero]
              set D := (if blk.dflt then (1 : Int) else 0) with hD
              push_cast at hold ⊢
              rw [← hc']
              linarith
        · exact Option.noConfusion hc
      · exact Option.noConfusion hc
    · exact Option.noConfusion hc
  · exact Option.noConfusion hc

theorem inv_copyAssign {s s' : SPState} {i j : Nat} (h : SInv s)
    (hc : copyAssign s i j = some s') : SInv s' := by
  obtain ⟨hwf, hbi⟩ := h
  unfold copyAssign at hc
  split at hc
  · split at hc
    · injection hc with hc
      subst hc
      exact ⟨hwf, hbi⟩
    · exact Option.noConfusion hc
  · rename_i hij
    split at hc
    · rename_i pi pj hi hj
      split at hc
      · rename_i b hb
        split at hc
        · rename_i blk hblk
          split at hc
          · rename_i c hcv
            injection hc with hc
            subst hc
            constructor
            · intro i' p hi' b' hb'
              dsimp only at hi' ⊢
              rw [setIdx_length, bumpAb_length]
              rcases getIdx_setIdx_elim hi' with ⟨_, hget⟩ | ⟨_, hpe⟩
              · exact hwf i' p hget b' hb'
              · injection hpe with hpe
                subst hpe
                simp only [Option.some.injEq] at hb'
                subst hb'
                exact getIdx_lt_length hblk
            · intro b' blk' hb' c' hc'
              dsimp only at hb' ⊢
              have hrc := refCount_setIdx (some ⟨pj.pointer, some b⟩) b' hi
              cases hpc : pi.count with
              | none =>
                rw [hpc] at hb'
                have hcpi : contrib (some pi) b' = 0 := by simp [contrib, hpc]
                rw [hcpi] at hrc
                simp only [bumpAb] at hb'
                rcases getIdx_setIdx_elim hb' with ⟨hne, hget⟩ | ⟨heq, hval⟩
                · have hcnp : contrib (some ⟨pj.pointer, some b⟩) b' = 0 := by
                    have hnb : ¬ ((some b : Option Nat) = some b') := by
                      intro e
                      injection e with e
                      exact hne e.symm
                    simp [contrib, hnb]
                  rw [hcnp] at hrc
                  rw [hbi b' blk' hget c' hc']
                  omega
                · subst heq
                  subst hval
                  dsimp only at hc' ⊢
                  simp only [Option.some.injEq] at hc'
                  have hold := hbi b' blk hblk c hcv
                  have hcnp : contrib (some ⟨pj.pointer, some b'⟩) b' = 1 := by
                    simp [contrib]
                  rw [hcnp] at hrc
                  rw [← hc']
                  have hifz : (if (none : Option Nat) = some b' then (1 : Nat) else 0) = 0 := rfl
                  rw [hifz]
                  set D := (if blk.dflt then (1 : Int) else 0) with hD
                  have hcast : (refCount (setIdx s.insts i (some ⟨pj.pointer, some b'⟩)) b' : Int)
                      = (refCount s.insts b' : Int) + 1 := by
                    omega
                  rw [hcast]
                  push_cast
                  linarith
              | some b0 =>
                rw [hpc] at hb'
                by_cases hbb : b0 = b
                · rw [hbb] at hb'
                  simp only [bumpAb, hblk] at hb'
                  rw [setIdx_setIdx] at hb'
                  have hcc : contrib (some pi) b' = contrib (some ⟨pj.pointer, some b⟩) b' := by
                    simp [contrib, hpc, hbb]
                  rw [hcc] at hrc
                  have hrc2 : refCount (setIdx s.insts i (some ⟨pj.pointer, some b⟩)) b'
                      = refCount s.insts b' := by omega
                  rcases getIdx_setIdx_elim hb' with ⟨hne, hget⟩ | ⟨heq, hval⟩
                  · rw [hbi b' blk' hget c' hc', hrc2]
                  · subst heq
                    subst hval
                    dsimp only at hc' ⊢
                    simp only [Option.some.injEq] at hc'
                    have hold := hbi b' blk hblk c hcv
                    rw [← hc', hrc2]
                    norm_num
                    set D := (if blk.dflt then (1 : Int) else 0) with hD
                    linarith
                · have hb0lt : b0 < s.blocks.length := hwf i pi hi b0 hpc
                  obtain ⟨blk0, hblk0⟩ := getIdx_of_lt hb0lt
                  simp only [bumpAb, hblk0] at hb'
                  rcases getIdx_setIdx_elim hb' with ⟨hne, hget2⟩ | ⟨heq, hval⟩
                  · rcases getIdx_setIdx_elim hget2 with ⟨hne0, hget3⟩ | ⟨heq0, hval0⟩
                    · have hcpi : contrib (some pi) b' = 0 := by
                        have hnb : ¬ ((some b0 : Option Nat) = some b') := by
                          intro e
                          injection e with e
                          exact hne0 e.symm
                        simp [contrib, hpc, hnb]
                      have hcnp : contrib (some ⟨pj.pointer, some b⟩) b' = 0 := by
                        have hnb : ¬ ((some b : Option Nat) = some b') := by
                          intro e
                          injection e with e
                          exact hne e.symm
                        simp [contrib, hnb]
                      rw [hcpi, hcnp] at hrc
                      rw [hbi b' blk' hget3 c' hc']
                      omega
                    · subst heq0
                      subst hval0
                      dsimp only at hc' ⊢
                      have hold := hbi b' blk0 hblk0 c' hc'
                      have hcpi : contrib (some pi) b' = 1 := by
                        simp [contrib, hpc]
                      have hcnp : contrib (some ⟨pj.pointer, some b⟩) b' = 0 := by
                        have hnb : ¬ ((some b : Option Nat) = some b') := by
                          intro e
                          injection e with e
                          exact hne e.symm
                        simp [contrib, hnb]
                      rw [hcpi, hcnp] at hrc
                      set D := (if blk0.dflt then (1 : Int) else 0) with hD
                      have hcast : (refCount s.insts b' : Int)
                          = (refCount (setIdx s.insts i (some ⟨pj.pointer, some b⟩)) b' : Int) + 1 := by
                        omega
                      push_cast
                      rw [hold, hcast]
                      ring
                  · subst heq
                    subst hval
                    dsimp only at hc' ⊢
                    simp only [Option.some.injEq] at hc'
                    have hold := hbi b' blk hblk c hcv
                    have hcpi : contrib (some pi) b' = 0 := by
                      have hnb : ¬ ((some b0 : Option Nat) = some b') := by
                        intro e
                        injection e with e
                        exact hbb e
                      simp [contrib, hpc, hnb]
                    have hcnp : contrib (some ⟨pj.pointer, some b'⟩) b' = 1 := by
                      simp [contrib]
                    rw [hcpi, hcnp] at hrc
                    rw [← hc']
                    have hifz : (if (some b0 : Option Nat) = some b' then (1 : Nat) else 0) = 0 := by
                      have hnb : ¬ ((some b0 : Option Nat) = some b') := by
                        intro e
                        injection e with e
                        exact hbb e
                      simp [hnb]
                    rw [hifz]
                    set D := (if blk.dflt then (1 : Int) else 0) with hD
                    simp only [Nat.add_zero] at hrc ⊢
                    have hcast : (refCount (setIdx s.insts i (some ⟨pj.pointer, some b'⟩)) b' : Int)
                        = (refCount s.insts b' : Int) + 1 := by
                      omega
                    rw [hcast]
                    linarith
          · exact Option.noConfusion hc
        · exact Option.noConfusion hc
      · exact Option.noConfusion hc
    · exact Option.noConfusion hc

theorem inv_moveCtor {s s' : SPState} {j : Nat} (h : SInv s)
    (hc : moveCtor s j = some s') : SInv s' := by
  obtain ⟨hwf, hbi⟩ := h
  unfold moveCtor at hc
  split at hc
  · rename_i pj hj
    injection hc with hc
    subst hc
    constructor
    · intro i' p hi' b' hb'
      dsimp only at hi' ⊢
      rcases getIdx_append_elim hi' with h1 | ⟨_, h2⟩
      · rcases getIdx_setIdx_elim h1 with ⟨_, hget⟩ | ⟨_, hpe⟩
        · exact hwf i' p hget b' hb'
        · injection hpe with hpe
          subst hpe
          exact Option.noConfusion hb'
      · injection h2 with h2
        subst h2
        exact hwf j p hj b' hb'
    · intro b' blk' hb' c' hc'
      dsimp only at hb' ⊢
      have h1 := refCount_setIdx (some (⟨none, none⟩ : SPtr)) b' hj
      have hnn : contrib (some (⟨none, none⟩ : SPtr)) b' = 0 := rfl
      rw [hnn] at h1
      rw [refCount_append]
      simp only [refCount, Nat.add_zero]
      have : refCount (setIdx s.insts j (some ⟨none, none⟩)) b' + contrib (some pj) b'
          = refCount s.insts b' := by omega
      rw [this]
      exact hbi b' blk' hb' c' hc'
  · exact Option.noConfusion hc

/-- What one release sequence does to the state: the instances are
untouched, the number of blocks is unchanged, and every still-live counter
satisfies the counting equation with this instance's contribution
subtracted. -/
theorem releaseRef_spec {s s1 : SPState} {pi : SPtr}
    (hbi : blockInv s) (hr : releaseRef s pi = some s1) :
    s1.insts = s.insts ∧ s1.blocks.length = s.blocks.length ∧
    (∀ b' blk', getIdx s1.blocks b' = some blk' → ∀ c', blk'.val = some c' →
      c' = ((refCount s.insts b' : Int) - contrib (some pi) b')
        - (if blk'.dflt then 1 else 0) + blk'.ab) := by
  unfold releaseRef at hr
  split at hr
  · rename_i hpc
    injection hr with hr
    subst hr
    refine ⟨rfl, rfl, ?_⟩
    intro b' blk' hb' c' hc'
    have hz : contrib (some pi) b' = 0 := by simp [contrib, hpc]
    rw [hz, hbi b' blk' hb' c' hc']
    ring
  · rename_i b0 hpc
    split at hr
    · rename_i blk0 hblk0
      split at hr
      · rename_i c0 hcv0
        split at hr
        · injection hr with hr
          subst hr
          refine ⟨rfl, by dsimp only; rw [setIdx_length], ?_⟩
          intro b' blk' hb' c' hc'
          dsimp only at hb'
          rcases getIdx_setIdx_elim hb' with ⟨hne, hget⟩ | ⟨heq, hval⟩
          · have hz : contrib (some pi) b' = 0 := by
              have hnb : ¬ ((some b0 : Option Nat) = some b') := by
                intro e
                injection e with e
                exact hne (e.symm)
              simp [contrib, hpc, hnb]
            rw [hz, hbi b' blk' hget c' hc']
            ring
          · subst hval
            exact Option.noConfusion hc'
        · rename_i hc0
          injection hr with hr
          subst hr
          refine ⟨rfl, by dsimp only; rw [setIdx_length], ?_⟩
          intro b' blk' hb' c' hc'
          dsimp only at hb'
          rcases getIdx_setIdx_elim hb' with ⟨hne, hget⟩ | ⟨heq, hval⟩
          · have hz : contrib (some pi) b' = 0 := by
              have hnb : ¬ ((some b0 : Option Nat) = some b') := by
                intro e
                injection e with e
                exact hne (e.symm)
              simp [contrib, hpc, hnb]
            rw [hz, hbi b' blk' hget c' hc']
            ring
          · subst heq
            subst hval
            dsimp only at hc' ⊢
            simp only [Option.some.injEq] at hc'
            have hold := hbi b' blk0 hblk0 c0 hcv0
            have ho : contrib (some pi) b' = 1 := by
              simp [contrib, hpc]
            rw [ho, ← hc']
            set D := (if blk0.dflt then (1 : Int) else 0) with hD
            push_cast
            linarith
      · exact Option.noConfusion hr
    · exact Option.noConfusion hr

theorem inv_moveAssign {s s' : SPState} {i j : Nat} (h : SInv s)
    (hc : moveAssign s i j = some s') : SInv s' := by
  obtain ⟨hwf, hbi⟩ := h
  unfold moveAssign at hc
  split at hc
  · split at hc
    · injection hc with hc
      subst hc
      exact ⟨hwf, hbi⟩
    · exact Option.noConfusion hc
  · rename_i hij
    split at hc
    · rename_i pi pj hi hj
      split at hc
      · rename_i s1 hr
        injection hc with hc
        subst hc
        obtain ⟨hins, hlen, hbl⟩ := releaseRef_spec hbi hr
        constructor
        · intro i' p hi' b' hb'
          dsimp only at hi' ⊢
          rw [hlen]
          rcases getIdx_setIdx_elim hi' with ⟨hne1, hget1⟩ | ⟨_, hpe⟩
          · rcases getIdx_setIdx_elim hget1 with ⟨hne2, hget2⟩ | ⟨_, hpe2⟩
            · rw [hins] at hget2
              exact hwf i' p hget2 b' hb'
            · injection hpe2 with hpe2
              subst hpe2
              exact hwf j p hj b' hb'
          · injection hpe with hpe
            subst hpe
            exact Option.noConfusion hb'
        · intro b' blk' hb' c' hc'
          dsimp only at hb' ⊢
          rw [hins]
          have hval := hbl b' blk' hb' c' hc'
          have hatj : getIdx (setIdx s.insts i (some pj)) j = some (some pj) := by
            rw [getIdx_setIdx_ne _ _ (fun e => hij e.symm)]
            exact hj
          have h1 := refCount_setIdx (some (⟨none, none⟩ : SPtr)) b' hatj
          have h2 := refCount_setIdx (some pj) b' hi
          have hnn : contrib (some (⟨none, none⟩ : SPtr)) b' = 0 := rfl
          rw [hnn] at h1
          rw [hval]
          set D := (if blk'.dflt then (1 : Int) else 0) with hD
          have hcast : (refCount (setIdx (setIdx s.insts i (some pj)) j
              (some ⟨none, none⟩)) b' : Int)
              = (refCount s.insts b' : Int) - contrib (some pi) b' := by
            omega
          rw [hcast]
      · exact Option.noConfusion hc
    · exact Option.noConfusion hc

theorem inv_reset {s s' : SPState} {i : Nat} (h : SInv s)
    (hc : reset s i = some s') : SInv s' := by
  obtain ⟨hwf, hbi⟩ := h
  unfold reset at hc
  split at hc
  · rename_i pi hi
    split at hc
    · rename_i s1 hr
      injection hc with hc
      subst hc
      obtain ⟨hins, hlen, hbl⟩ := releaseRef_spec hbi hr
      constructor
      · intro i' p hi' b' hb'
        dsimp only at hi' ⊢
        rw [hlen]
        rcases getIdx_setIdx_elim hi' with ⟨_, hget⟩ | ⟨_, hpe⟩
        · rw [hins] at hget
          exact hwf i' p hget b' hb'
        · injection hpe with hpe
          subst hpe
          exact Option.noConfusion hb'
      · intro b' blk' hb' c' hc'
        dsimp only at hb' ⊢
        rw [hins]
        have hval := hbl b' blk' hb' c' hc'
        have h2 := refCount_setIdx (some (⟨none, none⟩ : SPtr)) b' hi
        have hnn : contrib (some (⟨none, none⟩ : SPtr)) b' = 0 := rfl
        rw [hnn] at h2
        rw [hval]
        set D := (if blk'.dflt then (1 : Int) else 0) with hD
        have hcast : (refCount (setIdx s.insts i (some ⟨none, none⟩)) b' : Int)
            = (refCount s.insts b' : Int) - contrib (some pi) b' := by
          omega
        rw [hcast]
    · exact Option.noConfusion hc
  · exact Option.noConfusion hc

theorem inv_destroy {s s' : SPState} {i : Nat} (h : SInv s)
    (hc : destroy s i = some s') : SInv s' := by
  obtain ⟨hwf, hbi⟩ := h
  unfold destroy at hc
  split at hc
  · rename_i pi hi
    split at hc
    · rename_i s1 hr
      injection hc with hc
      subst hc
      obtain ⟨hins, hlen, hbl⟩ := releaseRef_spec hbi hr
      constructor
      · intro i' p hi' b' hb'
        dsimp only at hi' ⊢
        rw [hlen]
        rcases getIdx_setIdx_elim hi' with ⟨_, hget⟩ | ⟨_, hpe⟩
        · rw [hins] at hget
          exact hwf i' p hget b' hb'
        · exact Option.noConfusion hpe
      · intro b' blk' hb' c' hc'
        dsimp only at hb' ⊢
        rw [hins]
        have hval := hbl b' blk' hb' c' hc'
        have h2 := refCount_setIdx (none : Option SPtr) b' hi
        have hnn : contrib (none : Option SPtr) b' = 0 := rfl
        rw [hnn] at h2
        rw [hval]
        set D := (if blk'.dflt then (1 : Int) else 0) with hD
        have hcast : (refCount (setIdx s.insts i none) b' : Int)
            = (refCount s.insts b' : Int) - contrib (some pi) b' := by
          omega
        rw [hcast]
    · exact Option.noConfusion hc
  · exact Option.noConfusion hc

/-- Every operation preserves the invariant. -/
theorem inv_applyOp {s s' : SPState} {op : SOp} (h : SInv s)
    (hc : applyOp s op = some s') : SInv s' := by
  cases op with
  | newDefault =>
    injection hc with hc
    subst hc
    exact inv_newDefault h
  | newFromPtr =>
    injection hc with hc
    subst hc
    exact inv_newFromPtr h
  | copyCtor j => exact inv_copyCtor h hc
  | copyAssign i j => exact inv_copyAssign h hc
  | moveCtor j => exact inv_moveCtor h hc
  | moveAssign i j => exact inv_moveAssign h hc
  | reset i => exact inv_reset h hc
  | destroy i => exact inv_destroy h hc

/-- The invariant holds in every state reachable by a run. -/
theorem inv_run {ops : List SOp} {s s' : SPState} (h : SInv s)
    (hc : run s ops = some s') : SInv s' := by
  induction ops generalizing s with
  | nil =>
    injection hc with hc
    subst hc
    exact h
  | cons op rest ih =>
    unfold run at hc
    split at hc
    · rename_i s1 h1
      exact ih (inv_applyOp h h1) hc
    · exact Option.noConfusion hc

theorem refCount_pos {l : List (Option SPtr)} {a k : Nat} {p : SPtr}
    (h : getIdx l a = some (some p)) (hk : p.count = some k) :
    1 ≤ refCount l k := by
  induction l generalizing a with
  | nil => simp [getIdx] at h
  | cons x rest ih =>
    cases a with
    | zero =>
      simp only [getIdx, Option.some.injEq] at h
      subst h
      simp [refCount, contrib, hk]
    | succ m =>
      simp only [getIdx] at h
      have := ih h
      simp only [refCount]
      omega

theorem refCount_pair {l : List (Option SPtr)} {a b k : Nat} {p q : SPtr}
    (ha : getIdx l a = some (some p)) (hb : getIdx l b = some (some q))
    (hab : a ≠ b) (hpk : p.count = some k) (hqk : q.count = some k) :
    2 ≤ refCount l k := by
  induction l generalizing a b with
  | nil => simp [getIdx] at ha
  | cons x rest ih =>
    cases a with
    | zero =>
      cases b with
      | zero => exact absurd rfl hab
      | succ m =>
        simp only [getIdx, Option.some.injEq] at ha hb
        subst ha
        have hr := refCount_pos hb hqk
        have hcp : contrib (some p) k = 1 := by simp [contrib, hpk]
        simp only [refCount, hcp]
        omega
    | succ n =>
      cases b with
      | zero =>
        simp only [getIdx, Option.some.injEq] at ha hb
        subst hb
        have hr := refCount_pos ha hpk
        have hcq : contrib (some q) k = 1 := by simp [contrib, hqk]
        simp only [refCount, hcq]
        omega
      | succ m =>
        simp only [getIdx] at ha hb
        have := ih ha hb (fun e => hab (by simp [e]))
        simp only [refCount]
        omega

theorem refCount_zero_of_dead {l : List (Option SPtr)} {k : Nat}
    (h : ∀ i q, getIdx l i ≠ some (some q)) : refCount l k = 0 := by
  induction l with
  | nil => rfl
  | cons x rest ih =>
    have hx : contrib x k = 0 := by
      cases x with
      | none => rfl
      | some q => exact absurd rfl (h 0 q)
    have hr : refCount rest k = 0 := ih (fun i q => h (i + 1) q)
    simp [refCount, hx, hr]

theorem refCount_one_of_only {l : List (Option SPtr)} {k : Nat} {p : SPtr}
    (h0 : getIdx l 0 = some (some p)) (hk : p.count = some k)
    (hdead : ∀ i, i ≠ 0 → ∀ q, getIdx l i ≠ some (some q)) :
    refCount l k = 1 := by
  cases l with
  | nil => simp [getIdx] at h0
  | cons x rest =>
    simp only [getIdx, Option.some.injEq] at h0
    subst h0
    have hr : refCount rest k = 0 :=
      refCount_zero_of_dead (fun i q => hdead (i + 1) (by omega) q)
    simp [refCount, contrib, hk, hr]

/-- One concurrent step preserves the scenario invariant. -/
theorem concinv_step {s s' : SPState} (h : ConcInv s) (hs : CStep s s') :
    ConcInv s' := by
  obtain ⟨h0, hbl, hfo, hfb⟩ := h
  cases hs with
  | copy hap =>
    simp only [applyOp] at hap
    unfold copyCtor at hap
    rw [h0] at hap
    simp only at hap
    rw [hbl] at hap
    simp only [getIdx] at hap
    injection hap with hap
    subst hap
    have hlt : 0 < s.insts.length := getIdx_lt_length h0
    refine ⟨?_, ?_, hfo, hfb⟩
    · dsimp only
      rw [getIdx_append_lt _ hlt]
      exact h0
    · dsimp only
      rw [refCount_append]
      have hc1 : refCount [some (⟨some 0, some 0⟩ : SPtr)] 0 = 1 := rfl
      rw [hc1]
      simp only [setIdx]
      push_cast
      ring_nf
  | drop i hi0 hii hap =>
    simp only [applyOp] at hap
    unfold destroy at hap
    rw [hii] at hap
    simp only at hap
    unfold releaseRef at hap
    simp only at hap
    rw [hbl] at hap
    simp only [getIdx] at hap
    have h2 : 2 ≤ refCount s.insts 0 :=
      refCount_pair h0 hii (fun e => hi0 e.symm) rfl rfl
    have hnz : ¬ ((refCount s.insts 0 : Int) = 0) := by
      omega
    rw [if_neg hnz] at hap
    injection hap with hap
    subst hap
    have hcnt := refCount_setIdx (none : Option SPtr) 0 hii
    have hcz : contrib (none : Option SPtr) 0 = 0 := rfl
    have hco : contrib (some (⟨some 0, some 0⟩ : SPtr)) 0 = 1 := rfl
    rw [hcz, hco] at hcnt
    refine ⟨?_, ?_, hfo, hfb⟩
    · dsimp only
      rw [getIdx_setIdx_ne _ _ (fun e => hi0 e.symm)]
      exact h0
    · dsimp only
      simp only [setIdx]
      have : (refCount s.insts 0 : Int) - 1
          = (refCount (setIdx s.insts i none) 0 : Int) := by
        omega
      rw [this]

/-! ### The claims -/

/-- Claim C1 (refuted by the code): the claim says object and control
block are freed exactly once, at the decrement taking the count from 1 to
0, and never at any other count value.  `fetch_sub` returns the
pre-decrement value and the code compares it with 0, so destroying the
sole owner of a pointer-constructed `SharedPtr` (count 1 → 0) frees
nothing — object 0 and its block leak, with the counter left at 0 — while
destroying a default-constructed instance (count 0 → −1) does free its
block at a transition the claim excludes. -/
theorem sharedPtr_free_trigger_at_prior_zero :
    run init [SOp.newFromPtr, SOp.destroy 0] =
      some ⟨[⟨some 0, false, 0⟩], [none], 1, [], []⟩ ∧
    run init [SOp.newDefault, SOp.destroy 0] =
      some ⟨[⟨none, true, 0⟩], [none], 0, [], [0]⟩ :=
  ⟨rfl, rfl⟩

/-- Claim C3 (refuted by the code): move-assignment does release the
assignee's prior reference first, then adopts the source's fields, leaves
the source empty and never touches the adopted block's count — but the
claimed freeing condition fails.  Instance 0 solely owned object 0
(count 1); after `0 = move(1)` the old count was decremented from 1 to 0
yet object 0 and its block were not freed (empty free logs), because the
code frees only when the pre-decrement count was 0. -/
theorem moveAssign_release_no_free_at_zero :
    run init [SOp.newFromPtr, SOp.newFromPtr, SOp.moveAssign 0 1] =
      some ⟨[⟨some 0, false, 0⟩, ⟨some 1, false, 0⟩],
            [some ⟨some 1, some 1⟩, some ⟨none, none⟩], 2, [], []⟩ :=
  rfl

/-- Claim C2 counterexample: in the reachable state after one default
construction, block 0 is referenced by exactly one live instance while
its stored count is 0, so the count does not equal the number of live
referencing instances. -/
theorem default_ctor_count_refs_mismatch :
    run init [SOp.newDefault] =
      some ⟨[⟨some 0, true, 0⟩], [some ⟨none, some 0⟩], 0, [], []⟩ ∧
    refCount [some (⟨none, some 0⟩ : SPtr)] 0 = 1 ∧
    (⟨some 0, true, 0⟩ : Blk).val = some 0 ∧
    (0 : Int) ≠ (1 : Int) :=
  ⟨rfl, rfl, rfl, by decide⟩

/-- Claim C2 (amended): in every reachable state, every live control
block's count equals the number of live instances referencing it, minus
one if the block was allocated by the default constructor, plus the
number of times an instance abandoned its reference to it through
copy-assignment (which overwrites the block reference without any
decrement). -/
theorem sharedPtr_block_count_invariant {ops : List SOp} {s : SPState}
    (h : run init ops = some s) {b : Nat} {blk : Blk}
    (hb : getIdx s.blocks b = some blk) {c : Int} (hc : blk.val = some c) :
    c = (refCount s.insts b : Int) - (if blk.dflt then 1 else 0) + (blk.ab : Int) :=
  (inv_run inv_init h).2 b blk hb c hc

/-- Witness for the amended claim C2, at the state reached by one
pointer construction: count 1, one referencing instance, not default,
never abandoned. -/
theorem sharedPtr_block_count_invariant_witness :
    (1 : Int) = (refCount [some (⟨some 0, some 0⟩ : SPtr)] 0 : Int) - 0 + 0 :=
  @sharedPtr_block_count_invariant [SOp.newFromPtr]
    ⟨[⟨some 1, false, 0⟩], [some ⟨some 0, some 0⟩], 1, [], []⟩
    rfl 0 ⟨some 1, false, 0⟩ rfl 1 rfl

/-- Claim C4: copy-construction and copy-assignment from a live source
leave both instances holding the identical object pointer and the same
control block, whose count is bumped by exactly one, so `use_count()` on
both reads one more than the source's prior count; self-copy-assignment
is caught by the identity check and leaves the state unchanged. -/
theorem sharedPtr_copy_semantics {s : SPState} {j : Nat} {pj : SPtr} {b : Nat}
    {blk : Blk} {c : Int}
    (hj : getIdx s.insts j = some (some pj)) (hpc : pj.count = some b)
    (hblk : getIdx s.blocks b = some blk) (hcv : blk.val = some c) :
    (∃ s', copyCtor s j = some s' ∧
      getIdx s'.insts s.insts.length = some (some ⟨pj.pointer, some b⟩) ∧
      getIdx s'.insts j = some (some pj) ∧
      use_count s' s.insts.length = some (c + 1) ∧
      use_count s' j = some (c + 1)) ∧
    (∀ i pi, i ≠ j → getIdx s.insts i = some (some pi) →
      ∃ s', copyAssign s i j = some s' ∧
        getIdx s'.insts i = some (some ⟨pj.pointer, some b⟩) ∧
        getIdx s'.insts j = some (some pj) ∧
        use_count s' i = some (c + 1) ∧
        use_count s' j = some (c + 1)) ∧
    copyAssign s j j = some s := by
  have hjlt : j < s.insts.length := getIdx_lt_length hj
  refine ⟨?_, ?_, ?_⟩
  · have hcc : copyCtor s j = some { s with
        blocks := setIdx s.blocks b { blk with val := some (c + 1) }
        insts := s.insts ++ [some ⟨pj.pointer, some b⟩] } := by
      unfold copyCtor
      rw [hj]
      simp only
      rw [hpc]
      simp only
      rw [hblk]
      simp only
      rw [hcv]
    have hnew : getIdx (s.insts ++ [some ⟨pj.pointer, some b⟩]) s.insts.length
        = some (some ⟨pj.pointer, some b⟩) := getIdx_append_length _ _
    have hold : getIdx (s.insts ++ [some ⟨pj.pointer, some b⟩]) j = some (some pj) := by
      rw [getIdx_append_lt _ hjlt]
      exact hj
    have hblk2 : getIdx (setIdx s.blocks b { blk with val := some (c + 1) }) b
        = some { blk with val := some (c + 1) } := getIdx_setIdx_self _ hblk
    refine ⟨_, hcc, hnew, hold, ?_, ?_⟩
    · unfold use_count
      dsimp only
      rw [hnew]
      simp only
      rw [hblk2]
    · unfold use_count
      dsimp only
      rw [hold]
      simp only
      rw [hpc]
      simp only
      rw [hblk2]
  · intro i pi hij hi
    have hca : copyAssign s i j = some { s with
        blocks := setIdx (bumpAb s.blocks pi.count) b
          { blk with val := some (c + 1)
                     ab := blk.ab + (if pi.count = some b then 1 else 0) }
        insts := setIdx s.insts i (some ⟨pj.pointer, some b⟩) } := by
      unfold copyAssign
      rw [if_neg hij, hi, hj]
      simp only
      rw [hpc]
      simp only
      rw [hblk]
      simp only
      rw [hcv]
    have hati : getIdx (setIdx s.insts i (some ⟨pj.pointer, some b⟩)) i
        = some (some ⟨pj.pointer, some b⟩) := getIdx_setIdx_self _ hi
    have hatj : getIdx (setIdx s.insts i (some ⟨pj.pointer, some b⟩)) j
        = some (some pj) := by
      rw [getIdx_setIdx_ne _ _ (fun e => hij e.symm)]
      exact hj
    have hblt : b < (bumpAb s.blocks pi.count).length := by
      rw [bumpAb_length]
      exact getIdx_lt_length hblk
    obtain ⟨z, hz⟩ := getIdx_of_lt hblt
    have hblk2 := getIdx_setIdx_self
      { blk with val := some (c + 1)
                 ab := blk.ab + (if pi.count = some b then 1 else 0) } hz
    refine ⟨_, hca, hati, hatj, ?_, ?_⟩
    · unfold use_count
      dsimp only
      rw [hati]
      simp only
      rw [hblk2]
    · unfold use_count
      dsimp only
      rw [hatj]
      simp only
      rw [hpc]
      simp only
      rw [hblk2]
  · unfold copyAssign
    rw [if_pos rfl, hj]

/-- Witness for claim C4: self-copy-assignment on the sole owner of a
pointer-constructed `SharedPtr` leaves the state unchanged. -/
theorem sharedPtr_copy_semantics_witness :
    copyAssign ⟨[⟨some 1, false, 0⟩], [some ⟨some 0, some 0⟩], 1, [], []⟩ 0 0 =
      some ⟨[⟨some 1, false, 0⟩], [some ⟨some 0, some 0⟩], 1, [], []⟩ :=
  (@sharedPtr_copy_semantics
    ⟨[⟨some 1, false, 0⟩], [some ⟨some 0, some 0⟩], 1, [], []⟩
    0 ⟨some 0, some 0⟩ 0 ⟨some 1, false, 0⟩
    1 rfl rfl rfl rfl).2.2

/-- Claim C5 counterexample: copy-constructing from a default-constructed
(empty) instance yields an empty instance (null object pointer) whose
`use_count()` reads 1 — an empty instance can report a positive count. -/
theorem use_count_positive_on_empty :
    run init [SOp.newDefault, SOp.copyCtor 0] =
      some ⟨[⟨some 1, true, 0⟩], [some ⟨none, some 0⟩, some ⟨none, some 0⟩],
            0, [], []⟩ ∧
    sget ⟨[⟨some 1, true, 0⟩], [some ⟨none, some 0⟩, some ⟨none, some 0⟩],
      0, [], []⟩ 1 = some none ∧
    use_count ⟨[⟨some 1, true, 0⟩], [some ⟨none, some 0⟩, some ⟨none, some 0⟩],
      0, [], []⟩ 1 = some 1 :=
  ⟨rfl, rfl, rfl⟩

/-- Claim C5 (amended): `use_count()` returns the control block's current
count whenever the instance's block reference is non-null, and 0 exactly
when that reference is null (after move-out or reset); a pointer
construction initially reads 1 and a default construction reads 0.  An
empty instance with a live block reports that block's count, which can be
positive. -/
theorem use_count_semantics (s : SPState) (i : Nat) :
    (∀ p, getIdx s.insts i = some (some p) → p.count = none →
      use_count s i = some 0) ∧
    (∀ p b blk c, getIdx s.insts i = some (some p) → p.count = some b →
      getIdx s.blocks b = some blk → blk.val = some c →
      use_count s i = some c) ∧
    use_count (newDefault s) s.insts.length = some 0 ∧
    use_count (newFromPtr s) s.insts.length = some 1 := by
  refine ⟨?_, ?_, ?_, ?_⟩
  · intro p hp hpc
    unfold use_count
    rw [hp]
    simp only
    rw [hpc]
  · intro p b blk c hp hpc hblk hcv
    unfold use_count
    rw [hp]
    simp only
    rw [hpc]
    simp only
    rw [hblk]
    simp only
    rw [hcv]
  · unfold use_count
    dsimp only [newDefault]
    rw [getIdx_append_length]
    simp only
    rw [getIdx_append_length]
  · unfold use_count
    dsimp only [newFromPtr]
    rw [getIdx_append_length]
    simp only
    rw [getIdx_append_length]

/-- Witness for the amended claim C5, at the state reached by one pointer
construction: the sole owner reads count 1. -/
theorem use_count_semantics_witness :
    use_count ⟨[⟨some 1, false, 0⟩], [some ⟨some 0, some 0⟩], 1, [], []⟩ 0 = some 1 :=
  (use_count_semantics ⟨[⟨some 1, false, 0⟩], [some ⟨some 0, some 0⟩], 1, [], []⟩
    0).2.1 ⟨some 0, some 0⟩ 0 ⟨some 1, false, 0⟩ 1 rfl rfl rfl rfl

/-- Claim C6: in the interleaving model of the atomic counter, any
concurrent execution in which threads repeatedly copy-construct from the
shared original (instance 0) and destroy their local copies frees nothing
(no double free, no premature free), keeps `use_count()` equal to the
number of live owners, and once every thread-local copy has been
destroyed (all threads joined) the original's `use_count()` is exactly
1.  Nothing beyond the one object and one block is ever allocated, so
nothing leaks. -/
theorem concurrent_copy_destroy_safe {s0 s : SPState}
    (h0 : run init [SOp.newFromPtr] = some s0)
    (hs : Relation.ReflTransGen CStep s0 s) :
    s.freedObjs = [] ∧ s.freedBlocks = [] ∧
    use_count s 0 = some (refCount s.insts 0 : Int) ∧
    ((∀ i, i ≠ 0 → ∀ q, getIdx s.insts i ≠ some (some q)) →
      use_count s 0 = some 1) := by
  have h0' : (some (⟨[⟨some 1, false, 0⟩], [some ⟨some 0, some 0⟩], 1, [], []⟩
      : SPState) : Option SPState) = some s0 := h0
  injection h0' with h0'
  have hc0 : ConcInv s0 := by
    rw [← h0']
    refine ⟨rfl, rfl, rfl, rfl⟩
  have hconc : ConcInv s := by
    induction hs with
    | refl => exact hc0
    | tail _ hstep ih => exact concinv_step ih hstep
  obtain ⟨ha, hbl, hfo, hfb⟩ := hconc
  have huse : use_count s 0 = some (refCount s.insts 0 : Int) := by
    unfold use_count
    rw [ha]
    simp only
    rw [hbl]
    simp only [getIdx]
  refine ⟨hfo, hfb, huse, ?_⟩
  intro hdead
  rw [huse, refCount_one_of_only ha rfl hdead]
  rfl

/-- Witness for claim C6, at the trivial schedule with no thread steps:
the original's count reads 1 and nothing has been freed. -/
theorem concurrent_copy_destroy_safe_witness :
    use_count ⟨[⟨some 1, false, 0⟩], [some ⟨some 0, some 0⟩], 1, [], []⟩ 0 =
      some 1 :=
  (@concurrent_copy_destroy_safe
    ⟨[⟨some 1, false, 0⟩], [some ⟨some 0, some 0⟩], 1, [], []⟩
    ⟨[⟨some 1, false, 0⟩], [some ⟨some 0, some 0⟩], 1, [], []⟩
    rfl Relation.ReflTransGen.refl).2.2.2
    (fun i hi q => by
      cases i with
      | zero => exact absurd rfl hi
      | succ m => cases m <;> simp [getIdx])

/-- The release sequence never touches the instance slots. -/
theorem releaseRef_insts {s s1 : SPState} {p : SPtr}
    (h : releaseRef s p = some s1) : s1.insts = s.insts := by
  unfold releaseRef at h
  split at h
  · injection h with h
    subst h
    rfl
  · split at h
    · split at h
      · split at h
        · injection h with h
          subst h
          rfl
        · injection h with h
          subst h
          rfl
      · exact Option.noConfusion h
    · exact Option.noConfusion h

/-- Claim C10: `reset()` nulls both the object pointer and the
control-block reference; a second `reset()` hits the null-count guard,
performs no decrement and no free, and returns the state completely
unchanged; the guard likewise makes `reset()` on a moved-from instance a
total no-op, and destroying a moved-from instance frees nothing. -/
theorem sharedPtr_reset_idempotent {s s' : SPState} {i : Nat} {pi : SPtr}
    (hi : getIdx s.insts i = some (some pi)) (hr : reset s i = some s') :
    getIdx s'.insts i = some (some ⟨none, none⟩) ∧
    sget s' i = some none ∧
    reset s' i = some s' ∧
    (pi = ⟨none, none⟩ → s' = s) ∧
    (pi = ⟨none, none⟩ →
      destroy s i = some { s with insts := setIdx s.insts i none }) := by
  unfold reset at hr
  rw [hi] at hr
  simp only at hr
  split at hr
  · rename_i s1 hs1
    injection hr with hr
    subst hr
    have hins := releaseRef_insts hs1
    have hati : getIdx (setIdx s1.insts i (some ⟨none, none⟩)) i
        = some (some ⟨none, none⟩) := by
      have h2 : getIdx s1.insts i = some (some pi) := by
        rw [hins]
        exact hi
      exact getIdx_setIdx_self _ h2
    refine ⟨hati, ?_, ?_, ?_, ?_⟩
    · unfold sget
      dsimp only
      rw [hati]
    · unfold reset
      dsimp only
      rw [hati]
      simp only [releaseRef]
      rw [setIdx_setIdx]
    · intro hpi
      subst hpi
      have hs1' : s1 = s := by
        have : (some s : Option SPState) = some s1 := hs1
        injection this with h2
        exact h2.symm
      subst hs1'
      rw [setIdx_eq_of_getIdx hi]
    · intro hpi
      subst hpi
      unfold destroy
      rw [hi]
      simp only [releaseRef]
  · exact Option.noConfusion hr

/-- Witness for claim C10: after resetting the sole owner, a second
`reset()` returns the state unchanged. -/
theorem sharedPtr_reset_idempotent_witness :
    reset ⟨[⟨some 0, false, 0⟩], [some ⟨none, none⟩], 1, [], []⟩ 0 =
      some ⟨[⟨some 0, false, 0⟩], [some ⟨none, none⟩], 1, [], []⟩ :=
  (@sharedPtr_reset_idempotent
    ⟨[⟨some 1, false, 0⟩], [some ⟨some 0, some 0⟩], 1, [], []⟩
    ⟨[⟨some 0, false, 0⟩], [some ⟨none, none⟩], 1, [], []⟩
    0 ⟨some 0, some 0⟩ rfl rfl).2.2.1

/-- Claim C7: `UniquePtr` move-assignment with itself as source is a
no-op guarded by the identity comparison performed before any mutation
(in particular nothing is freed and the owned object is kept); with a
distinct source, the assignee's owned object is freed first, then the
source's pointer is adopted and the source is left empty. -/
theorem uniquePtr_move_assign_semantics {s : UPState} {i : Nat} :
    (∀ pi, getIdx s.insts i = some (some pi) → umoveAssign s i i = some s) ∧
    (∀ j pi pj, i ≠ j → getIdx s.insts i = some (some pi) →
      getIdx s.insts j = some (some pj) →
      ∃ s', umoveAssign s i j = some s' ∧
        s'.freedObjs = s.freedObjs ++ pi.toList ∧
        uget s' i = some pj ∧
        uget s' j = some none ∧
        s'.heap = s.heap) := by
  constructor
  · intro pi hi
    unfold umoveAssign
    rw [if_pos rfl, hi]
  · intro j pi pj hij hi hj
    have hma : umoveAssign s i j = some { s with
        freedObjs := s.freedObjs ++ pi.toList
        insts := setIdx (setIdx s.insts i (some pj)) j (some none) } := by
      unfold umoveAssign
      rw [if_neg hij, hi, hj]
    have hati : getIdx (setIdx (setIdx s.insts i (some pj)) j (some none)) i
        = some (some pj) := by
      rw [getIdx_setIdx_ne _ _ hij]
      exact getIdx_setIdx_self _ hi
    have hatj0 : getIdx (setIdx s.insts i (some pj)) j = some (some pj) := by
      rw [getIdx_setIdx_ne _ _ (fun e => hij e.symm)]
      exact hj
    have hatj : getIdx (setIdx (setIdx s.insts i (some pj)) j (some none)) j
        = some (some none) := getIdx_setIdx_self _ hatj0
    refine ⟨_, hma, rfl, ?_, ?_, rfl⟩
    · unfold uget
      dsimp only
      rw [hati]
    · unfold uget
      dsimp only
      rw [hatj]

/-- Witness for claim C7: self-move-assignment on an owner of object 0
leaves the state unchanged — in particular object 0 is not freed. -/
theorem uniquePtr_move_assign_semantics_witness :
    umoveAssign ⟨[some (some 0)], [42], []⟩ 0 0 = some ⟨[some (some 0)], [42], []⟩ :=
  (uniquePtr_move_assign_semantics
    (s := ⟨[some (some 0)], [42], []⟩) (i := 0)).1 (some 0) rfl

/-- Claim C8: `release()` hands back the owned raw pointer without
freeing anything (the freed-objects log is untouched) and empties the
instance, so a later destruction or `reset()` of that instance frees
nothing; `reset()` on an owning instance frees the owned object and
leaves `get()` null. -/
theorem uniquePtr_release_reset_semantics {s : UPState} {i : Nat} {o : Nat}
    (hi : getIdx s.insts i = some (some (some o))) :
    urelease s i = some ({ s with insts := setIdx s.insts i (some none) }, some o) ∧
    uget { s with insts := setIdx s.insts i (some none) } i = some none ∧
    ureset { s with insts := setIdx s.insts i (some none) } i =
      some { s with insts := setIdx s.insts i (some none) } ∧
    udestroy { s with insts := setIdx s.insts i (some none) } i =
      some { s with insts := setIdx (setIdx s.insts i (some none)) i none } ∧
    ureset s i = some { s with
      freedObjs := s.freedObjs ++ [o]
      insts := setIdx s.insts i (some none) } ∧
    uget { s with
      freedObjs := s.freedObjs ++ [o]
      insts := setIdx s.insts i (some none) } i = some none := by
  have hat1 : getIdx (setIdx s.insts i (some none)) i = some (some none) :=
    getIdx_setIdx_self _ hi
  refine ⟨?_, ?_, ?_, ?_, ?_, ?_⟩
  · unfold urelease
    rw [hi]
  · unfold uget
    dsimp only
    rw [hat1]
  · unfold ureset
    dsimp only
    rw [hat1]
    simp only [Option.toList, List.append_nil]
    rw [setIdx_setIdx]
  · unfold udestroy
    dsimp only
    rw [hat1]
    simp only [Option.toList, List.append_nil]
  · unfold ureset
    rw [hi]
    rfl
  · unfold uget
    dsimp only
    rw [hat1]

/-- Witness for claim C8: after releasing the sole owner of object 0, a
`reset()` frees nothing and changes nothing. -/
theorem uniquePtr_release_reset_semantics_witness :
    ureset ⟨[some none], [42], []⟩ 0 = some ⟨[some none], [42], []⟩ :=
  (uniquePtr_release_reset_semantics
    (s := ⟨[some (some 0)], [42], []⟩) (i := 0) (o := 0) rfl).2.2.1

/-- Claim C9: `UniquePtr::operator*` has return type `T`, not `T&`, so
dereferencing returns a fresh copy of the pointee: the copy compares
equal to the owned object, lives at a new location distinct from the
owned object, and mutating the copy leaves the owned object unchanged. -/
theorem uniquePtr_deref_returns_copy {s : UPState} {i o : Nat} {x : Int}
    (hi : getIdx s.insts i = some (some (some o))) (ho : getIdx s.heap o = some x) :
    uderefCopy s i = some ({ s with heap := s.heap ++ [x] }, s.heap.length) ∧
    s.heap.length ≠ o ∧
    getIdx (s.heap ++ [x]) s.heap.length = some x ∧
    getIdx (s.heap ++ [x]) o = some x ∧
    (∀ v, getIdx (writeObj { s with heap := s.heap ++ [x] } s.heap.length v).heap o
      = some x) ∧
    uget { s with heap := s.heap ++ [x] } i = some (some o) := by
  have holt : o < s.heap.length := getIdx_lt_length ho
  have hne : s.heap.length ≠ o := by omega
  have hkeep : getIdx (s.heap ++ [x]) o = some x := by
    rw [getIdx_append_lt _ holt]
    exact ho
  refine ⟨?_, hne, getIdx_append_length _ _, hkeep, ?_, ?_⟩
  · unfold uderefCopy
    rw [hi]
    simp only
    rw [ho]
  · intro v
    unfold writeObj
    dsimp only
    rw [getIdx_setIdx_ne _ _ (fun e => hne e.symm)]
    exact hkeep
  · unfold uget
    dsimp only
    rw [hi]

/-- Witness for claim C9: dereferencing the sole owner of object 0
(value 42) copies the value to a fresh cell; overwriting that copy with 7
leaves the owned object at 42. -/
theorem uniquePtr_deref_returns_copy_witness :
    getIdx (writeObj (⟨[some (some 0)], [(42 : Int), 42], []⟩ : UPState) 1 7).heap 0
      = some 42 :=
  (uniquePtr_deref_returns_copy
    (s := ⟨[some (some 0)], [42], []⟩) (i := 0) (o := 0) (x := 42)
    rfl rfl).2.2.2.2.1 7
